import Mathlib

/-!
Shallow embedding of the `wasm-game-of-life` crate (`src/lib.rs`).

Modelling conventions:
- `FixedBitSet` is a `List Bool`.  Reads through the crate's `Index` impl
  go via `contains` and return `false` out of bounds, modelled by
  `List.getD _ _ false`; `FixedBitSet::set` and `FixedBitSet::toggle`
  panic out of bounds, modelled with `Option` (`none` = panic).
- Rust `i32` arithmetic is modelled with unbounded `Int` (`i32` overflow
  is idealised away); Rust `%` on `i32` is truncating remainder, i.e.
  `Int.tmod`; the `as usize` cast of a possibly negative `i32` on wasm32
  reinterprets the 32 bits, modelled by `(· % (2 ^ 32) : Int).toNat` (Euclidean remainder).
- `u32` quantities (`width`, `height`, `generation`, `population`) are
  `Nat`.
- Functions that can panic return `Option`; `none` means the Rust call
  aborts.
-/

/-- The `Universe` struct: width, height, cell bit-set and generation. -/
structure Universe where
  width : Nat
  height : Nat
  cells : List Bool
  generation : Nat
deriving DecidableEq, Repr

/-- `FixedBitSet::set(bit, enabled)`: panics (`none`) when `bit` is out of
bounds, otherwise updates the bit in place. -/
def bitset_set (cells : List Bool) (bit : Nat) (enabled : Bool) : Option (List Bool) :=
  if bit < cells.length then some (cells.set bit enabled) else none

/-- `Universe::population`: `self.cells.count_ones(..)`. -/
def Universe.population (u : Universe) : Nat :=
  u.cells.count true

/-- `Universe::get_index`: add a whole row/column and take the (truncating)
remainder to support wrapping, then `(row * w + column) as usize`. -/
def Universe.get_index (u : Universe) (row column : Int) : Nat :=
  let h : Int := u.height
  let w : Int := u.width
  let row := (row + h).tmod h
  let column := (column + w).tmod w
  ((row * w + column) % (2 ^ 32)).toNat

/-- `Universe::set_cell`: writes one bit at `get_index(row, column)`
(`FixedBitSet::set` panics when that index is out of bounds). -/
def Universe.set_cell (u : Universe) (row column : Int) (state : Bool) : Option Universe :=
  (bitset_set u.cells (u.get_index row column) state).map fun cells => { u with cells := cells }

/-- `Universe::toggle_cell`: flips one bit at `get_index(row, column)`
(`FixedBitSet::toggle` panics when that index is out of bounds). -/
def Universe.toggle_cell (u : Universe) (row column : Int) : Option Universe :=
  let index := u.get_index row column
  if index < u.cells.length then
    some { u with cells := u.cells.set index (!(u.cells.getD index false)) }
  else
    none

/-- `Universe::get_cells`: the cells as a flat `Vec<u8>` of 0/1 in index
order. -/
def Universe.get_cells (u : Universe) : List Nat :=
  u.cells.map fun b => if b then 1 else 0

/-- The loop body of `Universe::set_cells`: `self.cells.set(i, *cell > 0)`
for each entry, starting at index `i`. -/
def set_cells_loop (cells : List Bool) (cs : List Nat) (i : Nat) : Option (List Bool) :=
  match cs with
  | [] => some cells
  | c :: rest =>
    match bitset_set cells i (decide (0 < c)) with
    | some cells => set_cells_loop cells rest (i + 1)
    | none => none

/-- `Universe::set_cells`: panics (`none`) unless the argument length equals
`width * height`, otherwise writes every entry as `*cell > 0`. -/
def Universe.set_cells (u : Universe) (cs : List Nat) : Option Universe :=
  if cs.length ≠ u.width * u.height then
    none
  else
    (set_cells_loop u.cells cs 0).map fun cells => { u with cells := cells }

/-- `Universe::count_living_neighbours`: fold over `deltas × deltas`,
skipping `(0, 0)`, summing the bits read (totally) from the grid. -/
def Universe.count_living_neighbours (u : Universe) (row column : Nat) : Nat :=
  let deltas : List Int := [-1, 0, 1]
  deltas.foldl (fun count dr =>
    deltas.foldl (fun count dc =>
      if dr = 0 ∧ dc = 0 then
        count
      else
        count +
          (if u.cells.getD (u.get_index ((row : Int) + dr) ((column : Int) + dc)) false
           then 1 else 0))
      count)
    0

/-- `Universe::get_next_cell_state`: the Game of Life transition rule. -/
def Universe.get_next_cell_state (u : Universe) (living_neighbour_count : Nat)
    (current_state : Bool) : Bool :=
  match current_state with
  | false =>
    if living_neighbour_count = 3 then true else false
  | true =>
    if living_neighbour_count = 2 ∨ living_neighbour_count = 3 then true else false

/-- The per-cell body of `Universe::tick`: read the pre-tick state and
neighbour count from `u`, write the transition result into `next`. -/
def tick_cell (u : Universe) (next : List Bool) (r c : Nat) : Option (List Bool) :=
  let index := u.get_index (r : Int) (c : Int)
  let neighbours_alive := u.count_living_neighbours r c
  bitset_set next index (u.get_next_cell_state neighbours_alive (u.cells.getD index false))

/-- `Universe::tick`: clone the cells into `next`, recompute every cell of
the grid from the pre-tick buffer, swap the buffers and increment the
generation. -/
def Universe.tick (u : Universe) : Option Universe :=
  ((List.range u.height).foldlM (fun next r =>
      (List.range u.width).foldlM (fun next c => tick_cell u next r c) next)
    u.cells).map fun next =>
    { u with cells := next, generation := u.generation + 1 }

/-- The glider bitmap chosen by the `match orientation` in
`Universe::add_glider`; any orientation other than 0–3 falls back to the
orientation-0 bitmap. -/
def glider_pattern (orientation : Nat) : List Nat :=
  match orientation with
  | 0 => [0, 1, 0, 0, 0, 1, 1, 1, 1]
  | 1 => [1, 0, 0, 1, 0, 1, 1, 1, 0]
  | 2 => [1, 1, 1, 1, 0, 0, 0, 1, 0]
  | 3 => [0, 1, 1, 1, 0, 1, 0, 0, 1]
  | _ => [0, 1, 0, 0, 0, 1, 1, 1, 1]

/-- `Universe::add_glider`: stamp the 3×3 glider bitmap centred on
`(row, column)` (`box_size = 3`, `nudge = 1`) via `set_cell`. -/
def Universe.add_glider (u : Universe) (row column : Int) (orientation : Nat) : Option Universe :=
  let glider := glider_pattern orientation
  (List.range 3).foldlM (fun u (r : Nat) =>
    (List.range 3).foldlM (fun u (c : Nat) =>
      u.set_cell (row + (r : Int) - 1) (column + (c : Int) - 1)
        (decide (0 < glider.getD (r * 3 + c) 0)))
      u)
    u

/-- Definition following the spec's words for `get_index` (§4.2):
`wrapped_row = ((row mod height) + height) mod height`,
`wrapped_column = ((column mod width) + width) mod width` with truncating
remainder semantics, returning `wrapped_row * width + wrapped_column`. -/
def Universe.get_index_double_mod (u : Universe) (row column : Int) : Nat :=
  let h : Int := u.height
  let w : Int := u.width
  ((row.tmod h + h).tmod h * w + (column.tmod w + w).tmod w).toNat

/-- A 3×3 all-dead universe. -/
def dead3 : Universe :=
  { width := 3, height := 3, cells := List.replicate 9 false, generation := 0 }

/-- A 5×5 all-dead universe. -/
def dead5 : Universe :=
  { width := 5, height := 5, cells := List.replicate 25 false, generation := 0 }

/-- A 5×5 universe holding a horizontal blinker at row 2, columns 1–3. -/
def blinker_h : Universe :=
  { width := 5, height := 5
    cells :=
      [false, false, false, false, false,
       false, false, false, false, false,
       false, true,  true,  true,  false,
       false, false, false, false, false,
       false, false, false, false, false]
    generation := 0 }

/-- The 5×5 universe holding the vertical blinker at column 2, rows 1–3,
one generation in. -/
def blinker_v : Universe :=
  { width := 5, height := 5
    cells :=
      [false, false, false, false, false,
       false, false, true,  false, false,
       false, false, true,  false, false,
       false, false, true,  false, false,
       false, false, false, false, false]
    generation := 1 }

/-! ### Arithmetic and list helper lemmas -/

/-- Truncating remainder is odd in the dividend. -/
lemma tmod_neg_left (a b : Int) : (-a).tmod b = -(a.tmod b) := by
  rw [Int.tmod_def, Int.tmod_def, Int.neg_tdiv]
  ring

/-- Lower bound for truncating remainder by a positive divisor. -/
lemma neg_lt_tmod (a : Int) {b : Int} (hb : 0 < b) : -b < a.tmod b := by
  rcases le_or_lt 0 a with h | h
  · have h1 := Int.tmod_nonneg b h
    omega
  · have h1 : (-a).tmod b < b := Int.tmod_lt_of_pos (-a) hb
    have h2 : (-a).tmod b = -(a.tmod b) := tmod_neg_left a b
    omega

/-- The truncating remainder leaves the Euclidean remainder unchanged. -/
lemma tmod_emod (a b : Int) : a.tmod b % b = a % b := by
  conv_rhs => rw [← Int.tmod_add_tdiv a b]
  rw [Int.add_mul_emod_self_left]

/-- `(a + b).tmod b` is the Euclidean remainder when `-b ≤ a` and `0 < b`. -/
lemma add_tmod_eq_emod (a b : Int) (hb : 0 < b) (ha : -b ≤ a) :
    (a + b).tmod b = a % b := by
  rw [Int.tmod_eq_emod (by omega) (by omega)]
  rw [show a + b = a + b * 1 by ring, Int.add_mul_emod_self_left]

/-- The double-mod of the spec computes the Euclidean remainder for all
dividends. -/
lemma double_tmod_eq_emod (a b : Int) (hb : 0 < b) :
    (a.tmod b + b).tmod b = a % b := by
  have h1 : -b < a.tmod b := neg_lt_tmod a hb
  rw [Int.tmod_eq_emod (by omega) (by omega)]
  rw [show a.tmod b + b = a.tmod b + b * 1 by ring, Int.add_mul_emod_self_left]
  exact tmod_emod a b

lemma mul_add_div_eq (r c w : Nat) (hw : 0 < w) (hc : c < w) : (r * w + c) / w = r := by
  rw [Nat.add_comm, Nat.add_mul_div_right c r hw, Nat.div_eq_of_lt hc, Nat.zero_add]

lemma mul_add_mod_eq (r c w : Nat) (hc : c < w) : (r * w + c) % w = c := by
  rw [Nat.add_comm, Nat.add_mul_mod_self_right, Nat.mod_eq_of_lt hc]

lemma mul_add_lt (r c w h : Nat) (hr : r < h) (hc : c < w) : r * w + c < w * h :=
  calc r * w + c < (r + 1) * w := by nlinarith
    _ ≤ h * w := Nat.mul_le_mul_right w (Nat.succ_le_of_lt hr)
    _ = w * h := Nat.mul_comm h w

lemma getD_set_self (l : List Bool) (i : Nat) (b : Bool) (h : i < l.length) :
    (l.set i b).getD i false = b := by
  rw [List.getD_eq_getElem?_getD, List.getElem?_set_self h]
  rfl

lemma getD_set_ne (l : List Bool) (i j : Nat) (b : Bool) (h : i ≠ j) :
    (l.set i b).getD j false = l.getD j false := by
  rw [List.getD_eq_getElem?_getD, List.getElem?_set_ne h, ← List.getD_eq_getElem?_getD]

lemma set_getD_self (l : List Bool) (i : Nat) (h : i < l.length) :
    l.set i (l.getD i false) = l := by
  apply List.ext_getElem?
  intro n
  rw [List.getElem?_set]
  by_cases hn : i = n
  · subst hn
    rw [if_pos rfl, if_pos h, List.getD_eq_getElem?_getD, List.getElem?_eq_getElem h]
    rfl
  · rw [if_neg hn]

/-! ### Characterisation of `get_index` -/

/-- On the single-wrap domain (`-height ≤ row`, `-width ≤ column`) the code's
`get_index` computes the canonical Euclidean-remainder index. -/
lemma get_index_eq (u : Universe) (hw : 0 < u.width) (hh : 0 < u.height)
    (hsz : u.width * u.height ≤ 2 ^ 32) (row col : Int)
    (hr : -(u.height : Int) ≤ row) (hc : -(u.width : Int) ≤ col) :
    u.get_index row col =
      (row % (u.height : Int) * (u.width : Int) + col % (u.width : Int)).toNat := by
  have hh' : (0 : Int) < (u.height : Int) := by exact_mod_cast hh
  have hw' : (0 : Int) < (u.width : Int) := by exact_mod_cast hw
  show (((row + (u.height : Int)).tmod (u.height : Int) * (u.width : Int) +
      (col + (u.width : Int)).tmod (u.width : Int)) % (2 ^ 32)).toNat = _
  rw [add_tmod_eq_emod row _ hh' hr, add_tmod_eq_emod col _ hw' hc]
  have h1 : 0 ≤ row % (u.height : Int) := Int.emod_nonneg row (by omega)
  have h2 : row % (u.height : Int) < (u.height : Int) := Int.emod_lt_of_pos row hh'
  have h3 : 0 ≤ col % (u.width : Int) := Int.emod_nonneg col (by omega)
  have h4 : col % (u.width : Int) < (u.width : Int) := Int.emod_lt_of_pos col hw'
  have h5 : row % (u.height : Int) * (u.width : Int) ≤
      ((u.height : Int) - 1) * (u.width : Int) :=
    mul_le_mul_of_nonneg_right (by omega) (by omega)
  have h6 : ((u.height : Int) - 1) * (u.width : Int) + (u.width : Int) =
      (u.height : Int) * (u.width : Int) := by ring
  have h7 : (u.height : Int) * (u.width : Int) ≤ 2 ^ 32 := by
    have h8 : ((u.width * u.height : Nat) : Int) ≤ ((2 ^ 32 : Nat) : Int) := by
      exact_mod_cast hsz
    push_cast at h8
    linarith
  have h0 : 0 ≤ row % (u.height : Int) * (u.width : Int) := mul_nonneg h1 (le_of_lt hw')
  rw [Int.emod_eq_of_lt (by linarith) (by linarith)]

/-- On the single-wrap domain, `get_index` lands inside the grid. -/
lemma get_index_lt (u : Universe) (hw : 0 < u.width) (hh : 0 < u.height)
    (hsz : u.width * u.height ≤ 2 ^ 32) (row col : Int)
    (hr : -(u.height : Int) ≤ row) (hc : -(u.width : Int) ≤ col) :
    u.get_index row col < u.width * u.height := by
  rw [get_index_eq u hw hh hsz row col hr hc]
  have hh' : (0 : Int) < (u.height : Int) := by exact_mod_cast hh
  have hw' : (0 : Int) < (u.width : Int) := by exact_mod_cast hw
  have h1 : 0 ≤ row % (u.height : Int) := Int.emod_nonneg row (by omega)
  have h2 : row % (u.height : Int) < (u.height : Int) := Int.emod_lt_of_pos row hh'
  have h3 : 0 ≤ col % (u.width : Int) := Int.emod_nonneg col (by omega)
  have h4 : col % (u.width : Int) < (u.width : Int) := Int.emod_lt_of_pos col hw'
  have h5 : row % (u.height : Int) * (u.width : Int) ≤
      ((u.height : Int) - 1) * (u.width : Int) :=
    mul_le_mul_of_nonneg_right (by omega) (by omega)
  have h6 : ((u.height : Int) - 1) * (u.width : Int) + (u.width : Int) =
      (u.height : Int) * (u.width : Int) := by ring
  have h0 : 0 ≤ row % (u.height : Int) * (u.width : Int) := mul_nonneg h1 (le_of_lt hw')
  have h8 : (u.height : Int) * (u.width : Int) = (u.width : Int) * (u.height : Int) := by ring
  rw [Int.toNat_lt (by linarith)]
  push_cast
  linarith

/-- In-range whole coordinates are mapped to the row-major linear index. -/
lemma get_index_nat (u : Universe) (hw : 0 < u.width) (hh : 0 < u.height)
    (hsz : u.width * u.height ≤ 2 ^ 32) (r c : Nat) (hr : r < u.height) (hc : c < u.width) :
    u.get_index (r : Int) (c : Int) = r * u.width + c := by
  rw [get_index_eq u hw hh hsz _ _ (by omega) (by omega)]
  rw [Int.emod_eq_of_lt (by omega) (by exact_mod_cast hr),
    Int.emod_eq_of_lt (by omega) (by exact_mod_cast hc)]
  rw [show (r : Int) * (u.width : Int) + (c : Int) = ((r * u.width + c : Nat) : Int) by
    push_cast; ring]
  exact Int.toNat_natCast _

/-- The spec's double-mod formula computes the canonical Euclidean-remainder
index for all integer inputs. -/
lemma get_index_double_mod_eq (u : Universe) (hw : 0 < u.width) (hh : 0 < u.height)
    (row col : Int) :
    u.get_index_double_mod row col =
      (row % (u.height : Int) * (u.width : Int) + col % (u.width : Int)).toNat := by
  have hh' : (0 : Int) < (u.height : Int) := by exact_mod_cast hh
  have hw' : (0 : Int) < (u.width : Int) := by exact_mod_cast hw
  show ((row.tmod (u.height : Int) + (u.height : Int)).tmod (u.height : Int) * (u.width : Int) +
      (col.tmod (u.width : Int) + (u.width : Int)).tmod (u.width : Int)).toNat = _
  rw [double_tmod_eq_emod row _ hh', double_tmod_eq_emod col _ hw']

/-! ### The claims -/

/-- C2 (counterexample): on a 5×5 universe, `get_index(-7, 0)` does not agree
with the spec's double-mod formula and is not in `[0, width*height)`: the
single `(row + height) % height` wrap of the code leaves `-7 + 5 = -2`
negative and the `as usize` cast turns it into a huge index. -/
theorem claim_C2_counterexample :
    dead5.get_index (-7) 0 ≠ dead5.get_index_double_mod (-7) 0 ∧
    ¬ dead5.get_index (-7) 0 < dead5.width * dead5.height := by
  decide

/-- C2 (amended): for `-height ≤ row` and `-width ≤ column` (the domain on
which the code's single-addition wrap succeeds), `get_index` equals the
double-mod formula `((row mod h) + h mod h) * w + ((col mod w) + w mod w)`,
lies in `[0, width*height)`, and is invariant under shifting by
`k*height` rows and `k*width` columns as long as the shifted coordinates
stay in that domain. -/
theorem claim_C2_get_index_wrap (u : Universe) (hw : 0 < u.width) (hh : 0 < u.height)
    (hsz : u.width * u.height ≤ 2 ^ 32) (row col : Int)
    (hr : -(u.height : Int) ≤ row) (hc : -(u.width : Int) ≤ col) :
    u.get_index row col = u.get_index_double_mod row col ∧
    u.get_index row col < u.width * u.height ∧
    ∀ k : Int, -(u.height : Int) ≤ row + k * (u.height : Int) →
      -(u.width : Int) ≤ col + k * (u.width : Int) →
      u.get_index (row + k * (u.height : Int)) (col + k * (u.width : Int)) =
        u.get_index row col := by
  refine ⟨?_, get_index_lt u hw hh hsz row col hr hc, ?_⟩
  · rw [get_index_eq u hw hh hsz row col hr hc, get_index_double_mod_eq u hw hh row col]
  · intro k hk1 hk2
    rw [get_index_eq u hw hh hsz _ _ hk1 hk2, get_index_eq u hw hh hsz row col hr hc]
    rw [Int.add_mul_emod_self, Int.add_mul_emod_self]

/-- C2 (witness for the amended theorem) at a 5×5 universe with
`row = -3`, `column = -2`. -/
theorem claim_C2_witness :
    dead5.get_index (-3) (-2) = dead5.get_index_double_mod (-3) (-2) ∧
    dead5.get_index (-3) (-2) < dead5.width * dead5.height ∧
    ∀ k : Int, -((dead5.height : Nat) : Int) ≤ -3 + k * ((dead5.height : Nat) : Int) →
      -((dead5.width : Nat) : Int) ≤ -2 + k * ((dead5.width : Nat) : Int) →
      dead5.get_index (-3 + k * ((dead5.height : Nat) : Int))
          (-2 + k * ((dead5.width : Nat) : Int)) =
        dead5.get_index (-3) (-2) :=
  claim_C2_get_index_wrap dead5 (by decide) (by decide) (by decide) (-3) (-2)
    (by decide) (by decide)

/-- C3: `get_next_cell_state` is a pure function of the neighbour count and
the current state; for any count (in particular any count in `[0, 8]`), a
live cell survives exactly when the count is 2 or 3, and a dead cell is born
exactly when the count is 3. -/
theorem claim_C3_transition_rule (u : Universe) (count : Nat) (hcount : count ≤ 8) :
    (u.get_next_cell_state count true = true ↔ (count = 2 ∨ count = 3)) ∧
    (u.get_next_cell_state count false = true ↔ count = 3) := by
  refine ⟨?_, ?_⟩ <;> simp [Universe.get_next_cell_state]

/-- C3 (witness) at count 3. -/
theorem claim_C3_witness :
    (dead5.get_next_cell_state 3 true = true ↔ ((3 : Nat) = 2 ∨ (3 : Nat) = 3)) ∧
    (dead5.get_next_cell_state 3 false = true ↔ (3 : Nat) = 3) :=
  claim_C3_transition_rule dead5 3 (by decide)

/-- C6: on the 5×5 grid, one tick turns the horizontal blinker (row 2,
columns 1–3) into the vertical blinker (column 2, rows 1–3, everything else
dead), and a second tick restores the horizontal blinker. -/
theorem claim_C6_blinker :
    blinker_h.tick = some blinker_v ∧
    blinker_v.tick = some { blinker_h with generation := 2 } := by
  constructor <;> decide

/-- C7: stamping a glider with `add_glider(1, 1, 0)` on the 3×3 all-dead
universe yields exactly `[0,1,0, 0,0,1, 1,1,1]`, and any orientation value
`≥ 4` silently stamps the same bitmap as orientation 0. -/
theorem claim_C7_add_glider :
    (dead3.add_glider 1 1 0).map Universe.get_cells =
      some [0, 1, 0, 0, 0, 1, 1, 1, 1] ∧
    ∀ (u : Universe) (row col : Int) (o : Nat), 4 ≤ o →
      u.add_glider row col o = u.add_glider row col 0 := by
  constructor
  · decide
  · intro u row col o ho
    have hpat : glider_pattern o = glider_pattern 0 := by
      obtain ⟨k, rfl⟩ : ∃ k, o = k + 4 := ⟨o - 4, by omega⟩
      rfl
    unfold Universe.add_glider
    rw [hpat]

/-- C7 (witness): orientation 7 behaves like orientation 0. -/
theorem claim_C7_witness :
    dead3.add_glider 2 0 7 = dead3.add_glider 2 0 0 :=
  claim_C7_add_glider.2 dead3 2 0 7 (by decide)

/-- The `set_cells` loop, started after a prefix it never touches, succeeds
and overwrites the rest of the buffer with the decoded entries. -/
lemma set_cells_loop_append (cs : List Nat) :
    ∀ (pre rest : List Bool), cs.length = rest.length →
      set_cells_loop (pre ++ rest) cs pre.length =
        some (pre ++ cs.map fun c => decide (0 < c)) := by
  induction cs with
  | nil =>
    intro pre rest hlen
    have hrest : rest = [] := List.eq_nil_of_length_eq_zero hlen.symm
    subst hrest
    simp [set_cells_loop]
  | cons c cs ih =>
    intro pre rest hlen
    cases rest with
    | nil => simp at hlen
    | cons b rest =>
      have hidx : pre.length < (pre ++ b :: rest).length := by simp
      have hset : (pre ++ b :: rest).set pre.length (decide (0 < c)) =
          pre ++ decide (0 < c) :: rest := by
        rw [List.set_append, if_neg (lt_irrefl pre.length)]
        simp
      simp only [set_cells_loop, bitset_set, if_pos hidx, hset]
      have h1 : pre ++ decide (0 < c) :: rest = (pre ++ [decide (0 < c)]) ++ rest := by
        simp
      have h2 : pre.length + 1 = (pre ++ [decide (0 < c)]).length := by
        simp
      rw [h1, h2, ih (pre ++ [decide (0 < c)]) rest (by simpa using hlen)]
      simp

/-- `set_cells` with a correctly sized argument replaces the whole buffer by
the decoded entries. -/
lemma set_cells_eq (u : Universe) (cs : List Nat) (inv : u.cells.length = u.width * u.height)
    (hlen : cs.length = u.width * u.height) :
    u.set_cells cs = some { u with cells := cs.map fun c => decide (0 < c) } := by
  unfold Universe.set_cells
  rw [if_neg (by omega)]
  have h := set_cells_loop_append cs [] u.cells (by omega)
  simp only [List.nil_append, List.length_nil] at h
  rw [h]
  rfl

/-- C4: feeding `get_cells()` back into `set_cells` is a no-op: the call
succeeds and returns the very same universe (same cells, width, height and
generation). -/
theorem claim_C4_roundtrip (u : Universe) (inv : u.cells.length = u.width * u.height) :
    u.set_cells u.get_cells = some u := by
  rw [set_cells_eq u _ inv (by simpa [Universe.get_cells] using inv)]
  have hdec : (u.get_cells.map fun c => decide (0 < c)) = u.cells := by
    unfold Universe.get_cells
    rw [List.map_map]
    have hcomp : ((fun c => decide (0 < c)) ∘ fun b : Bool => if b then (1 : Nat) else 0) =
        id := by
      funext b
      cases b <;> rfl
    rw [hcomp, List.map_id]
  rw [hdec]

/-- C4 (witness) on the 5×5 blinker universe. -/
theorem claim_C4_witness :
    blinker_h.set_cells blinker_h.get_cells = some blinker_h :=
  claim_C4_roundtrip blinker_h (by decide)

/-- C5: `set_cells` aborts (panics) on any length mismatch, applying nothing;
with a matching length it succeeds, leaves width, height and generation
unchanged, and makes cell `i` alive exactly when entry `i` is non-zero. -/
theorem claim_C5_set_cells (u : Universe) (cs : List Nat)
    (inv : u.cells.length = u.width * u.height) :
    (cs.length ≠ u.width * u.height → u.set_cells cs = none) ∧
    (cs.length = u.width * u.height →
      ∃ u', u.set_cells cs = some u' ∧
        u'.width = u.width ∧ u'.height = u.height ∧ u'.generation = u.generation ∧
        u'.cells = (cs.map fun c => decide (0 < c)) ∧
        ∀ i : Nat, i < cs.length → (u'.cells.getD i false = true ↔ cs.getD i 0 ≠ 0)) := by
  constructor
  · intro hne
    unfold Universe.set_cells
    rw [if_pos hne]
  · intro hlen
    refine ⟨_, set_cells_eq u cs inv hlen, rfl, rfl, rfl, rfl, ?_⟩
    intro i hi
    rw [List.getD_eq_getElem?_getD, List.getElem?_map,
      List.getElem?_eq_getElem hi, List.getD_eq_getElem?_getD,
      List.getElem?_eq_getElem hi]
    simp [Nat.pos_iff_ne_zero]

/-- C5 (witness): a 1-entry argument on the 3×3 universe aborts. -/
theorem claim_C5_witness :
    dead3.set_cells [5] = none :=
  (claim_C5_set_cells dead3 [5] (by decide)).1 (by decide)

/-- C8: `population()` equals the number of 1 entries of `get_cells()` and is
bounded by `width * height`. -/
theorem claim_C8_population (u : Universe) (inv : u.cells.length = u.width * u.height) :
    u.population = u.get_cells.count 1 ∧ u.population ≤ u.width * u.height := by
  constructor
  · unfold Universe.population Universe.get_cells
    have hinj : Function.Injective (fun b : Bool => if b then (1 : Nat) else 0) := by
      intro a b hab
      cases a <;> cases b <;> simp_all
    rw [← List.count_map_of_injective u.cells _ hinj true]
    norm_num
  · calc u.population ≤ u.cells.length := List.count_le_length true u.cells
      _ = u.width * u.height := inv

/-- C8 (witness) on the 5×5 blinker universe. -/
theorem claim_C8_witness :
    blinker_h.population = blinker_h.get_cells.count 1 ∧
    blinker_h.population ≤ blinker_h.width * blinker_h.height :=
  claim_C8_population blinker_h (by decide)

/-- `toggle_cell` unfolded on an in-bounds index. -/
lemma toggle_cell_eq (u : Universe) (row col : Int)
    (h : u.get_index row col < u.cells.length) :
    u.toggle_cell row col =
      some { u with cells := u.cells.set (u.get_index row col) (!(u.cells.getD (u.get_index row col) false)) } := by
  simp only [Universe.toggle_cell]
  rw [if_pos h]

/-- C9 (counterexample): `set_cell(-7, 0, true)` on a 5×5 universe panics
(out-of-bounds `FixedBitSet::set`), because the single-addition wrap leaves
the row negative and the `as usize` cast produces a huge index. -/
theorem claim_C9_counterexample :
    dead5.set_cell (-7) 0 true = none := by
  decide

/-- C9 (amended): for `-height ≤ row` and `-width ≤ column` (the domain on
which the single wrap succeeds), `set_cell` succeeds, writes exactly the bit
at `get_index(row, column)`, and leaves every other cell, the width, the
height and the generation unchanged. -/
theorem claim_C9_set_cell_frame (u : Universe) (hw : 0 < u.width) (hh : 0 < u.height)
    (inv : u.cells.length = u.width * u.height) (hsz : u.width * u.height ≤ 2 ^ 32)
    (row col : Int) (hr : -(u.height : Int) ≤ row) (hc : -(u.width : Int) ≤ col)
    (state : Bool) :
    ∃ u', u.set_cell row col state = some u' ∧
      u'.width = u.width ∧ u'.height = u.height ∧ u'.generation = u.generation ∧
      u'.cells.getD (u.get_index row col) false = state ∧
      ∀ j : Nat, j ≠ u.get_index row col → u'.cells.getD j false = u.cells.getD j false := by
  have hidx : u.get_index row col < u.cells.length := by
    rw [inv]
    exact get_index_lt u hw hh hsz row col hr hc
  refine ⟨{ u with cells := u.cells.set (u.get_index row col) state },
    ?_, rfl, rfl, rfl, ?_, ?_⟩
  · unfold Universe.set_cell bitset_set
    rw [if_pos hidx]
    rfl
  · exact getD_set_self _ _ _ hidx
  · intro j hj
    exact getD_set_ne _ _ _ _ fun h => hj h.symm

/-- C9 (witness for the amended theorem): `set_cell(-3, 9, true)` on the 5×5
universe. -/
theorem claim_C9_witness :
    ∃ u', dead5.set_cell (-3) 9 true = some u' ∧
      u'.width = dead5.width ∧ u'.height = dead5.height ∧
      u'.generation = dead5.generation ∧
      u'.cells.getD (dead5.get_index (-3) 9) false = true ∧
      ∀ j : Nat, j ≠ dead5.get_index (-3) 9 →
        u'.cells.getD j false = dead5.cells.getD j false :=
  claim_C9_set_cell_frame dead5 (by decide) (by decide) (by decide) (by decide)
    (-3) 9 (by decide) (by decide) true

/-- C10: on the single-wrap domain (`-height ≤ row`, `-width ≤ column`),
toggling the same cell twice returns exactly the original universe, so
`get_cells`, `population`, width, height and generation are all unchanged. -/
theorem claim_C10_toggle_involution (u : Universe) (hw : 0 < u.width) (hh : 0 < u.height)
    (inv : u.cells.length = u.width * u.height) (hsz : u.width * u.height ≤ 2 ^ 32)
    (row col : Int) (hr : -(u.height : Int) ≤ row) (hc : -(u.width : Int) ≤ col) :
    ∃ u1, u.toggle_cell row col = some u1 ∧ u1.toggle_cell row col = some u := by
  have hidx : u.get_index row col < u.cells.length := by
    rw [inv]
    exact get_index_lt u hw hh hsz row col hr hc
  refine ⟨{ u with cells := u.cells.set (u.get_index row col) (!(u.cells.getD (u.get_index row col) false)) },
    toggle_cell_eq u row col hidx, ?_⟩
  set u1 : Universe := { u with cells := u.cells.set (u.get_index row col) (!(u.cells.getD (u.get_index row col) false)) } with hu1
  have hsame : u1.get_index row col = u.get_index row col := rfl
  have hlen1 : u1.get_index row col < u1.cells.length := by
    rw [hsame, hu1]
    simpa using hidx
  rw [toggle_cell_eq u1 row col hlen1]
  have hbit : u1.cells.getD (u1.get_index row col) false =
      !(u.cells.getD (u.get_index row col) false) := by
    rw [hsame, hu1]
    exact getD_set_self _ _ _ hidx
  have hcells : u1.cells.set (u1.get_index row col)
      (!(u1.cells.getD (u1.get_index row col) false)) = u.cells := by
    rw [hbit, hsame, hu1, Bool.not_not]
    show (u.cells.set (u.get_index row col) _).set (u.get_index row col) _ = u.cells
    rw [List.set_set]
    exact set_getD_self u.cells (u.get_index row col) hidx
  rw [hcells]

/-- C10 (witness): toggling `(-2, 7)` twice on the 5×5 blinker universe. -/
theorem claim_C10_witness :
    ∃ u1, blinker_h.toggle_cell (-2) 7 = some u1 ∧
      u1.toggle_cell (-2) 7 = some blinker_h :=
  claim_C10_toggle_involution blinker_h (by decide) (by decide) (by decide) (by decide)
    (-2) 7 (by decide) (by decide)

/-- The bit `tick` computes for linear index `j`: the transition rule applied
to the pre-tick neighbour count and the pre-tick state of that cell. -/
def next_bit (u : Universe) (j : Nat) : Bool :=
  u.get_next_cell_state (u.count_living_neighbours (j / u.width) (j % u.width))
    (u.cells.getD j false)

/-- The inner (column) fold of `tick` over any list of in-range columns of
row `r`: it never panics, preserves the buffer length, writes `next_bit` at
every index `r*width + c` with `c` in the list and leaves every other index
of the buffer unchanged.  All reads come from the frozen pre-tick `u`. -/
lemma tick_cols (u : Universe) (hw : 0 < u.width) (hh : 0 < u.height)
    (hsz : u.width * u.height ≤ 2 ^ 32) (r : Nat) (hr : r < u.height) :
    ∀ (L : List Nat), (∀ c ∈ L, c < u.width) → ∀ (next : List Bool),
      next.length = u.width * u.height →
      ∃ next', L.foldlM (fun next c => tick_cell u next r c) next = some next' ∧
        next'.length = u.width * u.height ∧
        ∀ j : Nat, next'.getD j false =
          if ∃ c ∈ L, j = r * u.width + c then next_bit u j else next.getD j false := by
  intro L
  induction L with
  | nil =>
    intro _ next hlen
    refine ⟨next, by simp, hlen, ?_⟩
    intro j
    rw [if_neg (by simp)]
  | cons c L ih =>
    intro hmem next hlen
    have hc : c < u.width := hmem c (List.mem_cons_self c L)
    have hidx : u.get_index (r : Int) (c : Int) = r * u.width + c :=
      get_index_nat u hw hh hsz r c hr hc
    have hlt : r * u.width + c < next.length := by
      rw [hlen]
      exact mul_add_lt r c _ _ hr hc
    have hval : u.get_next_cell_state (u.count_living_neighbours r c)
        (u.cells.getD (r * u.width + c) false) = next_bit u (r * u.width + c) := by
      unfold next_bit
      rw [mul_add_div_eq r c _ hw hc, mul_add_mod_eq r c _ hc]
    obtain ⟨next', hfold, hlen', hget⟩ :=
      ih (fun c' hc' => hmem c' (List.mem_cons_of_mem c hc'))
        (next.set (r * u.width + c)
          (u.get_next_cell_state (u.count_living_neighbours r c)
            (u.cells.getD (r * u.width + c) false)))
        (by rw [List.length_set]; exact hlen)
    refine ⟨next', ?_, hlen', ?_⟩
    · rw [List.foldlM_cons]
      have hstep : tick_cell u next r c =
          some (next.set (r * u.width + c)
            (u.get_next_cell_state (u.count_living_neighbours r c)
              (u.cells.getD (r * u.width + c) false))) := by
        simp only [tick_cell, bitset_set]
        rw [hidx, if_pos hlt]
      rw [hstep]
      exact hfold
    · intro j
      rw [hget j]
      by_cases h1 : ∃ c' ∈ L, j = r * u.width + c'
      · rw [if_pos h1]
        obtain ⟨c', hc', hj⟩ := h1
        rw [if_pos ⟨c', List.mem_cons_of_mem c hc', hj⟩]
      · rw [if_neg h1]
        by_cases h2 : j = r * u.width + c
        · subst h2
          rw [getD_set_self _ _ _ hlt, hval, if_pos ⟨c, List.mem_cons_self c L, rfl⟩]
        · rw [getD_set_ne _ _ _ _ fun h => h2 h.symm]
          rw [if_neg ?_]
          rintro ⟨c', hc', hj⟩
          rcases List.mem_cons.mp hc' with h | h
          · exact h2 (by rw [hj, h])
          · exact h1 ⟨c', h, hj⟩

/-- The outer (row) fold of `tick` over any list of in-range rows: it never
panics, preserves the buffer length, and writes `next_bit` at exactly the
indices whose row is in the list. -/
lemma tick_rows (u : Universe) (hw : 0 < u.width) (hh : 0 < u.height)
    (hsz : u.width * u.height ≤ 2 ^ 32) :
    ∀ (R : List Nat), (∀ r ∈ R, r < u.height) → ∀ (next : List Bool),
      next.length = u.width * u.height →
      ∃ next', R.foldlM (fun next r =>
          (List.range u.width).foldlM (fun next c => tick_cell u next r c) next) next =
            some next' ∧
        next'.length = u.width * u.height ∧
        ∀ j : Nat, next'.getD j false =
          if j / u.width ∈ R then next_bit u j else next.getD j false := by
  intro R
  induction R with
  | nil =>
    intro _ next hlen
    exact ⟨next, by simp, hlen, fun j => by rw [if_neg (by simp)]⟩
  | cons r R ih =>
    intro hmem next hlen
    have hr : r < u.height := hmem r (List.mem_cons_self r R)
    obtain ⟨next1, hfold1, hlen1, hget1⟩ :=
      tick_cols u hw hh hsz r hr (List.range u.width)
        (fun c hc => List.mem_range.mp hc) next hlen
    obtain ⟨next', hfold', hlen', hget'⟩ :=
      ih (fun r' hr' => hmem r' (List.mem_cons_of_mem r hr')) next1 hlen1
    refine ⟨next', ?_, hlen', ?_⟩
    · rw [List.foldlM_cons, hfold1]
      exact hfold'
    · intro j
      rw [hget' j]
      have hcond : (∃ c ∈ List.range u.width, j = r * u.width + c) ↔ j / u.width = r := by
        constructor
        · rintro ⟨c, hcm, rfl⟩
          exact mul_add_div_eq r c _ hw (List.mem_range.mp hcm)
        · intro hjr
          refine ⟨j % u.width, List.mem_range.mpr (Nat.mod_lt j hw), ?_⟩
          have h0 := Nat.div_add_mod j u.width
          calc j = u.width * (j / u.width) + j % u.width := h0.symm
            _ = j / u.width * u.width + j % u.width := by rw [Nat.mul_comm]
            _ = r * u.width + j % u.width := by rw [hjr]
      by_cases h1 : j / u.width ∈ R
      · rw [if_pos h1, if_pos (List.mem_cons_of_mem r h1)]
      · rw [if_neg h1, hget1 j]
        by_cases h2 : j / u.width = r
        · rw [if_pos (hcond.mpr h2), if_pos (by rw [h2]; exact List.mem_cons_self r R)]
        · rw [if_neg (fun hcc => h2 (hcond.mp hcc)), if_neg ?_]
          intro hmem'
          rcases List.mem_cons.mp hmem' with h | h
          · exact h2 h
          · exact h1 h

/-- C1: on a valid universe, `tick` succeeds; the post-tick bit at
`get_index(r, c)` equals `get_next_cell_state` applied to the neighbour
count and cell state both read from the frozen pre-tick grid (so the result
is independent of iteration order), and the generation increases by 1. -/
theorem claim_C1_tick (u : Universe) (hw : 0 < u.width) (hh : 0 < u.height)
    (inv : u.cells.length = u.width * u.height) (hsz : u.width * u.height ≤ 2 ^ 32) :
    ∃ u', u.tick = some u' ∧
      u'.width = u.width ∧ u'.height = u.height ∧
      u'.generation = u.generation + 1 ∧
      u'.cells.length = u.width * u.height ∧
      ∀ r c : Nat, r < u.height → c < u.width →
        u'.cells.getD (u.get_index (r : Int) (c : Int)) false =
          u.get_next_cell_state (u.count_living_neighbours r c)
            (u.cells.getD (u.get_index (r : Int) (c : Int)) false) := by
  obtain ⟨next', hfold, hlen, hget⟩ :=
    tick_rows u hw hh hsz (List.range u.height) (fun r hr => List.mem_range.mp hr) u.cells inv
  refine ⟨{ u with cells := next', generation := u.generation + 1 }, ?_, rfl, rfl, rfl, hlen, ?_⟩
  · unfold Universe.tick
    rw [hfold]
    rfl
  · intro r c hr hc
    have hidx : u.get_index (r : Int) (c : Int) = r * u.width + c :=
      get_index_nat u hw hh hsz r c hr hc
    have hdiv : (r * u.width + c) / u.width = r := mul_add_div_eq r c _ hw hc
    rw [hidx]
    show next'.getD (r * u.width + c) false = _
    rw [hget (r * u.width + c), if_pos (by rw [hdiv]; exact List.mem_range.mpr hr)]
    unfold next_bit
    rw [hdiv, mul_add_mod_eq r c _ hc]

/-- C1 (witness) on the 3×3 all-dead universe. -/
theorem claim_C1_witness :
    ∃ u', dead3.tick = some u' ∧
      u'.width = dead3.width ∧ u'.height = dead3.height ∧
      u'.generation = dead3.generation + 1 ∧
      u'.cells.length = dead3.width * dead3.height ∧
      ∀ r c : Nat, r < dead3.height → c < dead3.width →
        u'.cells.getD (dead3.get_index (r : Int) (c : Int)) false =
          dead3.get_next_cell_state (dead3.count_living_neighbours r c)
            (dead3.cells.getD (dead3.get_index (r : Int) (c : Int)) false) :=
  claim_C1_tick dead3 (by decide) (by decide) (by decide) (by decide)
